import Mathlib

/-!
Verification of the kakeibo (household-ledger) accounting core, `src/app.py`.

The Python source is shallowly embedded as executable Lean definitions:

* Mutable account/transaction dicts become structures; the mutable account
  list becomes a `List Account` updated functionally.  `get_account` is
  first-match lookup, exactly like Python's `next(...)`, and in-place dict
  mutation of the found account becomes modification of the first matching
  list element.
* Monetary amounts and balances are `Int` (Python ints never overflow).
* Dates are ISO-8601 strings in the source, compared by string order,
  sliced with `[8:10]`, and prefix-matched against `"YYYY-MM"` keys.  On
  well-formed zero-padded ISO dates, string order coincides with
  lexicographic order on (year, month, day), `date[8:10]` is the day, and
  `date.startswith(ym)` is equality of (year, month).  We therefore embed a
  date as a `YMD` record and a month key as a `YM` record with the
  corresponding lexicographic comparisons.
* `date.today()` (the wall clock) is passed explicitly as a `today : YMD`
  argument to every function that reads it.
* Python's stable `list.sort(key=day)` is embedded as Mathlib's
  `List.insertionSort` by day, which is stable and hence produces the same
  list as any stable sort by the same key.
* The JSON document's `categories`/`tags` members only feed the UI and
  never influence balances or any figure the claims mention; they are
  omitted from the embedded `Data` record.
-/

/-! ### Data model (src/app.py dicts) -/

inductive AccType where
  | asset
  | liability
deriving DecidableEq

inductive AccClass where
  | current
  | long
deriving DecidableEq

/-- An account dict.  `payDay = 0` models an absent `payDay` key: every read
in the source goes through `acc.get("payDay", 0)`.  Likewise
`payFromAccountId = 0` models an absent key. -/
structure Account where
  id : Nat
  name : String
  type : AccType
  cls : AccClass
  balance : Int
  payDay : Nat
  payFromAccountId : Nat
deriving DecidableEq

inductive TxKind where
  | expense
  | income
  | transfer
  | cc_detail
deriving DecidableEq

/-- Embedded calendar date (ISO-8601 `YYYY-MM-DD`). -/
structure YMD where
  y : Nat
  m : Nat
  d : Nat
deriving DecidableEq

/-- Embedded month key (`YYYY-MM`). -/
structure YM where
  y : Nat
  m : Nat
deriving DecidableEq

/-- Strict order on dates = ISO string `<` on well-formed dates. -/
def ymdLt (a b : YMD) : Prop :=
  a.y < b.y ∨ (a.y = b.y ∧ (a.m < b.m ∨ (a.m = b.m ∧ a.d < b.d)))

instance (a b : YMD) : Decidable (ymdLt a b) := by
  unfold ymdLt; exact inferInstance

/-- Non-strict order on dates = ISO string `<=` on well-formed dates. -/
def ymdLe (a b : YMD) : Prop := ymdLt a b ∨ a = b

instance (a b : YMD) : Decidable (ymdLe a b) := by
  unfold ymdLe; exact inferInstance

/-- Strict order on month keys = string `<` on `"YYYY-MM"` keys. -/
def ymLt (a b : YM) : Prop := a.y < b.y ∨ (a.y = b.y ∧ a.m < b.m)

instance (a b : YM) : Decidable (ymLt a b) := by
  unfold ymLt; exact inferInstance

/-- Month-prefix test `tx["date"].startswith(month_key)` on well-formed dates. -/
def inMonth (x : YMD) (mk : YM) : Prop := x.y = mk.y ∧ x.m = mk.m

instance (x : YMD) (mk : YM) : Decidable (inMonth x mk) := by
  unfold inMonth; exact inferInstance

/-- A transaction dict.  The source stores `accountId` only on
expense/income/cc_detail rows and `fromAccountId`/`toAccountId` only on
transfer rows; absent keys are embedded as `0` and are never read for the
kinds that do not carry them. -/
structure Tx where
  id : Nat
  date : YMD
  amount : Int
  kind : TxKind
  category : String
  tags : List String
  schedule : String
  memo : String
  accountId : Nat
  fromAccountId : Nat
  toAccountId : Nat
deriving DecidableEq

structure FixedCost where
  id : Nat
  name : String
  amount : Int
  category : String
  day : Nat
  accountId : Nat
  tags : List String
deriving DecidableEq

structure IncomeScheduleEntry where
  id : Nat
  name : String
  amount : Int
  day : Nat
  accountId : Nat
deriving DecidableEq

/-- The persisted document (accounts, transactions, fixedCosts,
incomeSchedule); `categories`/`tags` are display-only and omitted. -/
structure Data where
  accounts : List Account
  transactions : List Tx
  fixedCosts : List FixedCost
  incomeSchedule : List IncomeScheduleEntry
deriving DecidableEq

/-- First account whose id matches: `get_account(data, account_id)`. -/
def get_account : List Account → Nat → Option Account
  | [], _ => none
  | a :: rest, i => if a.id = i then some a else get_account rest i

/-- Python `sum(f(x) for x in l)`. -/
def sumBy (l : List α) (f : α → Int) : Int := (l.map f).sum

/-- Fresh id `next_id(items)`: 1 on an empty list, else `max(ids) + 1`. -/
def next_id (ids : List Nat) : Nat :=
  match ids with
  | [] => 1
  | _ => ids.foldl Nat.max 0 + 1

/-! ### Ledger posting engine

`add_transaction`, `update_transaction` and `delete_transaction` contain
three near-identical blocks of balance arithmetic: apply (create), reverse
then re-apply (update), reverse (delete).  `postTx accs t sgn` merges them:
`sgn = 1` is the apply block, `sgn = -1` the reverse block; every branch
below matches the corresponding `+=`/`-=` line of the source, and a
referenced account that does not exist is skipped exactly as the
`if acc:` guards of update/delete do (create refuses to reach `postTx`
with a missing account, see `applyOp`). -/

/-- In-place `balance += c` on the first account with the given id
(Python mutates the dict returned by `get_account`). -/
def addBalance : List Account → Nat → Int → List Account
  | [], _, _ => []
  | a :: rest, i, c =>
    if a.id = i then { a with balance := a.balance + c } :: rest
    else a :: addBalance rest i c

/-- Signed balance effect of one transaction (see section comment). -/
def postTx (accs : List Account) (t : Tx) (sgn : Int) : List Account :=
  match t.kind with
  | TxKind.cc_detail => accs
  | TxKind.transfer =>
    let l1 := match get_account accs t.fromAccountId with
      | some _ => addBalance accs t.fromAccountId (-(sgn * t.amount))
      | none => accs
    match get_account accs t.toAccountId with
    | some toAcc =>
      if toAcc.type = AccType.liability then
        addBalance l1 t.toAccountId (-(sgn * t.amount))
      else
        addBalance l1 t.toAccountId (sgn * t.amount)
    | none => l1
  | TxKind.expense =>
    match get_account accs t.accountId with
    | some acc =>
      if acc.type = AccType.liability then
        addBalance accs t.accountId (sgn * t.amount)
      else
        addBalance accs t.accountId (-(sgn * t.amount))
    | none => accs
  | TxKind.income =>
    match get_account accs t.accountId with
    | some _ => addBalance accs t.accountId (sgn * t.amount)
    | none => accs

/-- The §4.1 sign-rule delta this transaction applies to the balance of the
account with id `i` (0 for a missing account, matching the skipped
`if acc:` branches). -/
def txDelta (accs : List Account) (t : Tx) (i : Nat) : Int :=
  match t.kind with
  | TxKind.cc_detail => 0
  | TxKind.expense =>
    match get_account accs t.accountId with
    | some a =>
      if t.accountId = i then
        (if a.type = AccType.liability then t.amount else -t.amount)
      else 0
    | none => 0
  | TxKind.income =>
    match get_account accs t.accountId with
    | some _ => if t.accountId = i then t.amount else 0
    | none => 0
  | TxKind.transfer =>
    (match get_account accs t.fromAccountId with
     | some _ => if t.fromAccountId = i then -t.amount else 0
     | none => 0)
    +
    (match get_account accs t.toAccountId with
     | some a =>
       if t.toAccountId = i then
         (if a.type = AccType.liability then -t.amount else t.amount)
       else 0
     | none => 0)

/-- Do all accounts referenced by the transaction exist? -/
def refsExist (accs : List Account) (t : Tx) : Bool :=
  match t.kind with
  | TxKind.transfer =>
    (get_account accs t.fromAccountId).isSome && (get_account accs t.toAccountId).isSome
  | _ => (get_account accs t.accountId).isSome

/-! ### Transaction CRUD (the only code path that mutates balances) -/

/-- Request body of `POST /api/transactions`. -/
structure TxBody where
  date : YMD
  amount : Int
  kind : TxKind
  category : String
  tags : List String
  schedule : String
  memo : String
  accountId : Nat
  fromAccountId : Nat
  toAccountId : Nat
deriving DecidableEq

/-- The transaction record `add_transaction` builds from the body: fresh id
via `next_id`, category forced to `"振替"` for transfers, and only the
account fields relevant to the kind stored (absent keys are `0`). -/
def mkTx (txs : List Tx) (b : TxBody) : Tx :=
  { id := next_id (txs.map Tx.id)
    date := b.date
    amount := b.amount
    kind := b.kind
    category := if b.kind = TxKind.transfer then "振替" else b.category
    tags := b.tags
    schedule := b.schedule
    memo := b.memo
    accountId := if b.kind = TxKind.transfer then 0 else b.accountId
    fromAccountId := if b.kind = TxKind.transfer then b.fromAccountId else 0
    toAccountId := if b.kind = TxKind.transfer then b.toAccountId else 0 }

/-- Request body of `PUT /api/transactions/<id>`: each field is optional and
defaults to the stored value (`body.get(k, tx[k])`).  The source never
updates `type`, `fromAccountId` or `toAccountId`. -/
structure UpdateBody where
  date : Option YMD
  amount : Option Int
  category : Option String
  tags : Option (List String)
  schedule : Option String
  memo : Option String
  accountId : Option Nat
deriving DecidableEq

/-- Step 2 of `update_transaction` (field update). -/
def applyBody (t : Tx) (b : UpdateBody) : Tx :=
  { t with
    date := b.date.getD t.date
    amount := b.amount.getD t.amount
    category := b.category.getD t.category
    tags := b.tags.getD t.tags
    schedule := b.schedule.getD t.schedule
    memo := b.memo.getD t.memo
    accountId := b.accountId.getD t.accountId }

/-- First transaction with the given id: `next(t for t in transactions if t["id"] == tx_id)`. -/
def findTx : List Tx → Nat → Option Tx
  | [], _ => none
  | t :: rest, i => if t.id = i then some t else findTx rest i

/-- In-place replacement of the first transaction with the given id. -/
def updateTxById : List Tx → Nat → Tx → List Tx
  | [], _, _ => []
  | t :: rest, i, t' => if t.id = i then t' :: rest else t :: updateTxById rest i t'

/-- Removal by id: `[t for t in transactions if t["id"] != tx_id]`. -/
def removeTxById : List Tx → Nat → List Tx
  | [], _ => []
  | t :: rest, i => if t.id = i then removeTxById rest i else t :: removeTxById rest i

inductive Op where
  | create (b : TxBody)
  | update (txId : Nat) (b : UpdateBody)
  | delete (txId : Nat)
deriving DecidableEq

/-- One HTTP mutation on the persisted document.  Returns the saved document
and whether the handler reported success.  An error response short-circuits
before `save_data`, so the document is unchanged in that case. -/
def stepR (d : Data) : Op → Data × Bool
  | Op.create b =>
    let t := mkTx d.transactions b
    if refsExist d.accounts t then
      ({ d with accounts := postTx d.accounts t 1, transactions := d.transactions ++ [t] }, true)
    else (d, false)
  | Op.update i b =>
    match findTx d.transactions i with
    | none => (d, false)
    | some t =>
      -- 1. reverse the old posting, 2. update fields, 3. apply the new one
      let l1 := postTx d.accounts t (-1)
      let t' := applyBody t b
      ({ d with accounts := postTx l1 t' 1, transactions := updateTxById d.transactions i t' },
       true)
  | Op.delete i =>
    match findTx d.transactions i with
    | none => (d, false)
    | some t =>
      ({ d with accounts := postTx d.accounts t (-1),
                transactions := removeTxById d.transactions i },
       true)

def applyOp (d : Data) (op : Op) : Data := (stepR d op).1

def applyOps (d : Data) (ops : List Op) : Data := ops.foldl applyOp d

/-- Does the operation only reference accounts that exist (and, for
update, keep referencing existing accounts after the field update)? -/
def opOK (d : Data) : Op → Bool
  | Op.create b => refsExist d.accounts (mkTx d.transactions b)
  | Op.update i b =>
    match findTx d.transactions i with
    | none => true
    | some t => refsExist d.accounts t && refsExist d.accounts (applyBody t b)
  | Op.delete i =>
    match findTx d.transactions i with
    | none => true
    | some t => refsExist d.accounts t

def opsOK : Data → List Op → Bool
  | _, [] => true
  | d, op :: ops => opOK d op && opsOK (applyOp d op) ops

/-! ### Pending income, hand balance, credit-cycle resolver -/

/-- Pending income `calc_pending_income(data)`: total and id set of income transactions
dated strictly after today whose account has class `"current"` (the
wall-clock `date.today()` is the explicit `today` argument). -/
def calc_pending_income (d : Data) (today : YMD) : Int × List Nat :=
  d.transactions.foldl
    (fun acc t =>
      if t.kind = TxKind.income ∧ ymdLt today t.date then
        match get_account d.accounts t.accountId with
        | some a => if a.cls = AccClass.current then (acc.1 + t.amount, acc.2 ++ [t.id]) else acc
        | none => acc
      else acc)
    (0, [])

/-- Sum of current-class asset balances. -/
def current_assets (d : Data) : Int :=
  sumBy d.accounts (fun a => if a.type = AccType.asset ∧ a.cls = AccClass.current then a.balance else 0)

/-- Money actually in hand: current assets minus pending income. -/
def hand (d : Data) (today : YMD) : Int := current_assets d - (calc_pending_income d today).1

/-- Revolving-account test `is_cc_account`: current-class liability with a positive `payDay`. -/
def is_cc_account (a : Account) : Prop :=
  a.type = AccType.liability ∧ a.cls = AccClass.current ∧ 0 < a.payDay

instance (a : Account) : Decidable (is_cc_account a) := by
  unfold is_cc_account; exact inferInstance

def isLeap (y : Nat) : Bool :=
  (y % 4 == 0 && y % 100 != 0) || (y % 400 == 0)

/-- Days in a month: `calendar.monthrange(y, m)[1]`. -/
def daysInMonth (y m : Nat) : Nat :=
  if m = 2 then (if isLeap y then 29 else 28)
  else if m = 4 ∨ m = 6 ∨ m = 9 ∨ m = 11 then 30
  else 31

/-- Billing-cycle start `get_cc_cycle_start(a, today)`: start (= previous billing day) of the
account's current billing cycle. -/
def get_cc_cycle_start (a : Account) (today : YMD) : YMD :=
  let payDay := a.payDay
  if payDay = 0 then ⟨today.y, today.m, 1⟩
  else if payDay ≤ today.d then ⟨today.y, today.m, payDay⟩
  else
    let lastM := if 1 < today.m then today.m - 1 else 12
    let lastY := if 1 < today.m then today.y else today.y - 1
    ⟨lastY, lastM, Nat.min payDay (daysInMonth lastY lastM)⟩

/-! ### Cash-flow projection (`build_cashflow_events`) -/

/-- One entry of the event list `build_cashflow_events` returns. -/
structure Event where
  day : Nat
  name : String
  amount : Int
  type : String
  account : String
  cc : Bool
  liability_pay : Bool
deriving DecidableEq

def accName (accs : List Account) (i : Nat) : String :=
  match get_account accs i with
  | some a => a.name
  | none => ""

/-- Pending-income arrival events (first loop). -/
def cfPendingEvent (d : Data) (mk : YM) (offset : Nat) (today : YMD)
    (pending : List Nat) (t : Tx) : Option Event :=
  if t.id ∉ pending then none
  else if ¬ inMonth t.date mk then none
  else if offset = 0 ∧ t.date.d ≤ today.d then none
  else
    some { day := t.date.d
           name := if t.schedule ≠ "" then t.schedule else t.category
           amount := t.amount
           type := "income"
           account := accName d.accounts t.accountId
           cc := false
           liability_pay := false }

def TxKind.str : TxKind → String
  | TxKind.expense => "expense"
  | TxKind.income => "income"
  | TxKind.transfer => "transfer"
  | TxKind.cc_detail => "cc_detail"

/-- Future non-revolving liability-account transactions (second loop). -/
def cfLiabilityEvent (d : Data) (mk : YM) (offset : Nat) (today : YMD)
    (pending : List Nat) (t : Tx) : Option Event :=
  if t.id ∈ pending then none
  else if ¬ inMonth t.date mk then none
  else if ¬ (t.kind = TxKind.expense ∨ t.kind = TxKind.income) then none
  else
    match get_account d.accounts t.accountId with
    | none => none
    | some acc =>
      if acc.type = AccType.liability then
        if is_cc_account acc then none
        else if offset = 0 ∧ t.date.d ≤ today.d then none
        else
          some { day := t.date.d
                 name := if t.schedule ≠ "" then t.schedule else t.category
                 amount := if t.kind = TxKind.expense then -t.amount else t.amount
                 type := t.kind.str
                 account := acc.name
                 cc := false
                 liability_pay := true }
      else none

/-- In-month `cc_detail` rows (informational, `cc = true`). -/
def cfCcDetailEvent (d : Data) (mk : YM) (t : Tx) : Option Event :=
  if t.kind = TxKind.cc_detail ∧ inMonth t.date mk then
    some { day := t.date.d
           name := if t.category ≠ "" then t.category else t.memo
           amount := -t.amount
           type := "cc_detail"
           account := accName d.accounts t.accountId
           cc := true
           liability_pay := false }
  else none

/-- Sum of `cc_detail` recorded against the account inside the current billing
cycle (`cycle_start <= t["date"] <= today`). -/
def ccCycleDetSum (d : Data) (today : YMD) (a : Account) : Int :=
  sumBy d.transactions (fun t =>
    if t.kind = TxKind.cc_detail ∧ t.accountId = a.id ∧
       ymdLe (get_cc_cycle_start a today) t.date ∧ ymdLe t.date today
    then t.amount else 0)

/-- Fixed costs routed to the account whose day has passed this month. -/
def ccFcSum (d : Data) (today : YMD) (a : Account) : Int :=
  sumBy d.fixedCosts (fun fc => if fc.accountId = a.id ∧ fc.day ≤ today.d then fc.amount else 0)

/-- Remainder `unjournaled = balance - cc_det_sum - cc_fc_sum` for one account. -/
def cfUnjournaled (d : Data) (today : YMD) (a : Account) : Int :=
  a.balance - ccCycleDetSum d today a - ccFcSum d today a

/-- The synthetic "CC未仕訳雑費" expense event for one revolving account. -/
def cfSynthEvent (a : Account) (today : YMD) (u : Int) : Event :=
  { day := today.d
    name := a.name ++ " 雑費"
    amount := -u
    type := "expense"
    account := a.name
    cc := false
    liability_pay := false }

/-- Synthetic unjournaled-spend events, one per revolving account whose
remainder is positive. -/
def cfSynthEvents (d : Data) (today : YMD) : List Event :=
  d.accounts.filterMap (fun a =>
    if is_cc_account a then
      (if 0 < cfUnjournaled d today a then some (cfSynthEvent a today (cfUnjournaled d today a))
       else none)
    else none)

/-- Fixed-cost events (every month; skipped once matured when offset 0). -/
def cfFixedCostEvent (d : Data) (offset : Nat) (today : YMD) (fc : FixedCost) : Option Event :=
  if offset = 0 ∧ fc.day ≤ today.d then none
  else
    some { day := fc.day
           name := fc.name
           amount := -fc.amount
           type := "expense"
           account := accName d.accounts fc.accountId
           cc := false
           liability_pay := false }

/-- Scheduled-income events. -/
def cfIncomeScheduleEvent (d : Data) (offset : Nat) (today : YMD)
    (inc : IncomeScheduleEntry) : Option Event :=
  if offset = 0 ∧ inc.day ≤ today.d then none
  else
    some { day := inc.day
           name := inc.name
           amount := inc.amount
           type := "income"
           account := accName d.accounts inc.accountId
           cc := false
           liability_pay := false }

/-- The unsorted event list (construction order of the source). -/
def cfEventsRaw (d : Data) (mk : YM) (offset : Nat) (today : YMD) : List Event :=
  let pending := (calc_pending_income d today).2
  d.transactions.filterMap (cfPendingEvent d mk offset today pending)
    ++ d.transactions.filterMap (cfLiabilityEvent d mk offset today pending)
    ++ (if offset = 0 then
          d.transactions.filterMap (cfCcDetailEvent d mk) ++ cfSynthEvents d today
        else [])
    ++ d.fixedCosts.filterMap (cfFixedCostEvent d offset today)
    ++ d.incomeSchedule.filterMap (cfIncomeScheduleEvent d offset today)

/-- Event list `build_cashflow_events(data, month_key, offset, today)`: the raw list
stably sorted by day (`events.sort(key=lambda e: e["day"])`). -/
def build_cashflow_events (d : Data) (mk : YM) (offset : Nat) (today : YMD) : List Event :=
  (cfEventsRaw d mk offset today).insertionSort (fun e₁ e₂ => e₁.day ≤ e₂.day)

/-- The running-balance fold of `get_cashflow`/`get_calendar`: add each
event's amount unless it is flagged `cc`. -/
def cfFold (evs : List Event) (start : Int) : Int :=
  evs.foldl (fun s e => if e.cc then s else s + e.amount) start

/-! ### P/L aggregator (`get_pl`)

The handler builds the `expenses_by_cat` dict incrementally (transactions,
then matured CC-routed fixed costs, then the CC-unsorted plug).  A dict that
only ever receives `dict[k] = dict.get(k, 0) + v` updates is embedded as the
function sending each key to its final total. -/

/-- Contribution of one transaction to `expenses_by_cat[cat]`:
`cc_detail` always counts, `expense` is skipped when its account exists and
is a liability account, `income`/`transfer` never count. -/
def plTxExpenseContrib (accs : List Account) (mk : YM) (cat : String) (t : Tx) : Int :=
  if ¬ inMonth t.date mk then 0
  else if t.kind = TxKind.cc_detail then (if t.category = cat then t.amount else 0)
  else if t.kind = TxKind.expense then
    match get_account accs t.accountId with
    | some a =>
      if a.type = AccType.liability then 0
      else (if t.category = cat then t.amount else 0)
    | none => if t.category = cat then t.amount else 0
  else 0

/-- Transaction part of `expenses_by_cat[cat]`. -/
def plTxExpenses (d : Data) (mk : YM) (cat : String) : Int :=
  sumBy d.transactions (plTxExpenseContrib d.accounts mk cat)

/-- Does the id resolve to a revolving (`is_cc_account`) account? -/
def accIsCc (accs : List Account) (i : Nat) : Bool :=
  match get_account accs i with
  | some a => decide (is_cc_account a)
  | none => false

/-- Is this fixed cost counted by the CC-fixed-cost loop of `get_pl`?
It must be routed to a revolving account and, when the requested month is
the current month, already matured (`day <= today.day`); for any other
requested month every such fixed cost is counted. -/
def plFcCounted (d : Data) (mk : YM) (today : YMD) (fc : FixedCost) : Prop :=
  accIsCc d.accounts fc.accountId = true ∧ (mk = ⟨today.y, today.m⟩ → fc.day ≤ today.d)

instance (d : Data) (mk : YM) (today : YMD) (fc : FixedCost) :
    Decidable (plFcCounted d mk today fc) := by
  unfold plFcCounted
  exact instDecidableAnd

/-- Fixed-cost part of `expenses_by_cat[cat]`. -/
def plFcExpenses (d : Data) (mk : YM) (today : YMD) (cat : String) : Int :=
  sumBy d.fixedCosts (fun fc =>
    if plFcCounted d mk today fc ∧ fc.category = cat then fc.amount else 0)

/-- Per-account total `pl_fc_by_acc[acc_id]` of matured CC-routed fixed costs. -/
def pl_fc_by_acc (d : Data) (mk : YM) (today : YMD) (accId : Nat) : Int :=
  sumBy d.fixedCosts (fun fc =>
    if fc.accountId = accId ∧ plFcCounted d mk today fc then fc.amount else 0)

/-- Base figure `cc_base` for one revolving account: the live balance for the current
month, else that month's plain expense postings against the account. -/
def plCcBase (d : Data) (mk : YM) (today : YMD) (a : Account) : Int :=
  if mk = ⟨today.y, today.m⟩ then a.balance
  else sumBy d.transactions (fun t =>
    if t.kind = TxKind.expense ∧ t.accountId = a.id ∧ inMonth t.date mk then t.amount else 0)

/-- Itemised sum `cc_det_sum` for one revolving account: current-cycle `cc_detail` for
the current month, else that month's `cc_detail` rows. -/
def plCcDetSum (d : Data) (mk : YM) (today : YMD) (a : Account) : Int :=
  if mk = ⟨today.y, today.m⟩ then ccCycleDetSum d today a
  else sumBy d.transactions (fun t =>
    if t.kind = TxKind.cc_detail ∧ t.accountId = a.id ∧ inMonth t.date mk then t.amount else 0)

/-- Remainder `unsorted = cc_base - cc_det_sum - fc_sum` for one revolving account. -/
def plRemainder (d : Data) (mk : YM) (today : YMD) (a : Account) : Int :=
  plCcBase d mk today a - plCcDetSum d mk today a - pl_fc_by_acc d mk today a.id

/-- Plug figure `cc_unsorted`: fold over the accounts, adding each revolving account's
remainder only when it is positive. -/
def cc_unsorted (d : Data) (mk : YM) (today : YMD) : Int :=
  d.accounts.foldl
    (fun s a =>
      if is_cc_account a ∧ 0 < plRemainder d mk today a then s + plRemainder d mk today a else s)
    0

/-- Final value of `expenses_by_cat[cat]` in the `get_pl` response. -/
def expenses_by_cat (d : Data) (mk : YM) (today : YMD) (cat : String) : Int :=
  plTxExpenses d mk cat + plFcExpenses d mk today cat
    + (if 0 < cc_unsorted d mk today ∧ cat = "雑費" then cc_unsorted d mk today else 0)

/-! ### Calendar replay (`get_calendar`)

The embedded result keeps each day's `day`, `balance`, `isToday`, `isPast`
fields and the month's `startBalance`/`endBalance`.  The per-day `events`
lists are display-only strings (grouped via `build_tx_events`) that never
feed back into any balance; they are omitted. -/

structure CalDay where
  day : Nat
  balance : Option Int
  isToday : Bool
  isPast : Bool
deriving DecidableEq

structure CalResult where
  startBalance : Int
  endBalance : Int
  days : List CalDay
deriving DecidableEq

/-- Past-month mode start balance: begin from `hand` and for every
expense/income transaction on a current-class asset account dated on or
after the first of the target month, add back expenses and remove incomes
(the source's reverse-accumulation loop). -/
def calPastStart (d : Data) (mk : YM) (today : YMD) : Int :=
  d.transactions.foldl
    (fun s t =>
      if ymdLe ⟨mk.y, mk.m, 1⟩ t.date ∧ (t.kind = TxKind.expense ∨ t.kind = TxKind.income) then
        match get_account d.accounts t.accountId with
        | some a =>
          if a.type = AccType.asset ∧ a.cls = AccClass.current then
            (if t.kind = TxKind.expense then s + t.amount else s - t.amount)
          else s
        | none => s
      else s)
    (hand d today)

/-- Is the transaction in `tx_by_day[day]` for the requested month? -/
def txOnDay (t : Tx) (mk : YM) (day : Nat) : Prop :=
  inMonth t.date mk ∧ t.date.d = day ∧
    (t.kind = TxKind.expense ∨ t.kind = TxKind.income ∨ t.kind = TxKind.cc_detail)

instance (t : Tx) (mk : YM) (day : Nat) : Decidable (txOnDay t mk day) := by
  unfold txOnDay; exact instDecidableAnd

/-- Past-month mode: net effect of one day's recorded transactions on the
running balance (only current-class asset accounts move it; note the source
treats a non-`expense` kind, including `cc_detail`, as `+amount` here). -/
def calPastDayDelta (d : Data) (mk : YM) (day : Nat) : Int :=
  sumBy d.transactions (fun t =>
    if txOnDay t mk day then
      match get_account d.accounts t.accountId with
      | some a =>
        if a.type = AccType.asset ∧ a.cls = AccClass.current then
          (if t.kind = TxKind.expense then -t.amount else t.amount)
        else 0
      | none => 0
    else 0)

/-- Past-month day loop (`for d in range(1, num_days + 1)`): `n` entries
for days `i, i+1, ...`, threading the running balance; returns the entries
and the final balance. -/
def calPastDaysAux (d : Data) (mk : YM) (n : Nat) (i : Nat) (running : Int) :
    List CalDay × Int :=
  match n with
  | 0 => ([], running)
  | n + 1 =>
    let r := running + calPastDayDelta d mk i
    let rest := calPastDaysAux d mk n (i + 1) r
    ({ day := i, balance := some r, isToday := false, isPast := true } :: rest.1, rest.2)

/-- Current/future-month mode: pending-income arrivals recorded on the day
(`running += tx["amount"]` for transactions in the pending id set). -/
def calPendingArrival (d : Data) (mk : YM) (today : YMD) (day : Nat) : Int :=
  sumBy d.transactions (fun t =>
    if txOnDay t mk day ∧ t.id ∈ (calc_pending_income d today).2 then t.amount else 0)

/-- Total unjournaled CC spend subtracted on today's calendar cell (same
per-account clamp as the cash-flow engine). -/
def ccMiscTotal (d : Data) (today : YMD) : Int :=
  d.accounts.foldl
    (fun s a =>
      if is_cc_account a ∧ 0 < cfUnjournaled d today a then s + cfUnjournaled d today a else s)
    0

/-- Future-day cash-out for recorded transactions on non-revolving liability
accounts (only `expense` rows move the balance here). -/
def calFutureLiab (d : Data) (mk : YM) (today : YMD) (day : Nat) : Int :=
  sumBy d.transactions (fun t =>
    if txOnDay t mk day ∧ t.id ∉ (calc_pending_income d today).2 then
      match get_account d.accounts t.accountId with
      | some a =>
        if a.type = AccType.liability ∧ ¬ is_cc_account a ∧ t.kind = TxKind.expense
        then t.amount else 0
      | none => 0
    else 0)

def fcDaySum (d : Data) (day : Nat) : Int :=
  sumBy d.fixedCosts (fun fc => if fc.day = day then fc.amount else 0)

def incDaySum (d : Data) (day : Nat) : Int :=
  sumBy d.incomeSchedule (fun inc => if inc.day = day then inc.amount else 0)

/-- Current/future-month day loop.  The balance shown for a day is the
running balance after all of that day's updates; it is withheld
(`none`) when the requested month is the current month and the day is
strictly before today (`show_balance = day_date >= today`). -/
def calDaysAux (d : Data) (mk : YM) (today : YMD) (n : Nat) (i : Nat) (running : Int) :
    List CalDay × Int :=
  match n with
  | 0 => ([], running)
  | n + 1 =>
    let thisYm : YM := ⟨today.y, today.m⟩
    let r1 := running + calPendingArrival d mk today i
    let r2 := if mk = thisYm ∧ i = today.d then r1 - ccMiscTotal d today else r1
    let isFuture := ymLt thisYm mk ∨ (mk = thisYm ∧ today.d < i)
    let r3 := if isFuture then r2 - calFutureLiab d mk today i - fcDaySum d i + incDaySum d i
              else r2
    let entry : CalDay :=
      { day := i
        balance := if mk = thisYm ∧ i < today.d then none else some r3
        isToday := decide ((⟨mk.y, mk.m, i⟩ : YMD) = today)
        isPast := decide (ymdLt ⟨mk.y, mk.m, i⟩ today ∧ mk = thisYm) }
    let rest := calDaysAux d mk today n (i + 1) r3
    (entry :: rest.1, rest.2)

/-- Future-month advance: the source's `while True` month loop, folding the
non-cc events of every fully intervening month (offset 1) until the
(normalised) cursor month reaches the target month. -/
def calAdvance (d : Data) (today : YMD) (ty tm : Nat) (cy cm : Nat) (running : Int) : Int :=
  let cy' := if 12 < cm then cy + 1 else cy
  let cm' := if 12 < cm then cm - 12 else cm
  if ty < cy' ∨ (cy' = ty ∧ tm ≤ cm') then running
  else calAdvance d today ty tm cy' (cm' + 1)
        (cfFold (build_cashflow_events d ⟨cy', cm'⟩ 1 today) running)
termination_by (ty + 1 - cy) * 13 + (13 - cm)
decreasing_by
  rename_i hguard
  unfold cy' cm' at hguard
  by_cases hc : 12 < cm
  · simp only [dif_pos hc, if_pos hc] at hguard ⊢
    omega
  · simp only [dif_neg hc, if_neg hc] at hguard ⊢
    omega

/-- Embedded `get_calendar` for a requested month `mk`, with the wall clock passed
explicitly. -/
def get_calendar (d : Data) (mk : YM) (today : YMD) : CalResult :=
  let thisYm : YM := ⟨today.y, today.m⟩
  let numDays := daysInMonth mk.y mk.m
  if ymLt mk thisYm then
    -- past month: reverse-accumulate a start balance, then replay
    let start := calPastStart d mk today
    let res := calPastDaysAux d mk numDays 1 start
    { startBalance := start, endBalance := res.2, days := res.1 }
  else
    -- current or future month: start from hand, advance over the months
    -- strictly between the current one and the target
    let running0 := hand d today
    let running1 :=
      if ymLt thisYm mk then
        calAdvance d today mk.y mk.m today.y (today.m + 1)
          (cfFold (build_cashflow_events d thisYm 0 today) running0)
      else running0
    let res := calDaysAux d mk today numDays 1 running1
    { startBalance := running1, endBalance := res.2, days := res.1 }

/-! ## Lemmas about the posting engine -/

theorem get_account_addBalance_ne (accs : List Account) (j i : Nat) (c : Int) (h : j ≠ i) :
    get_account (addBalance accs j c) i = get_account accs i := by
  induction accs with
  | nil => rfl
  | cons a rest ih =>
    simp only [addBalance]
    by_cases ha : a.id = j
    · simp [get_account, ha, h]
    · simp [get_account, ha, ih]

theorem get_account_addBalance_eq (accs : List Account) (i : Nat) (c : Int) :
    get_account (addBalance accs i c) i =
      (get_account accs i).map (fun a => { a with balance := a.balance + c }) := by
  induction accs with
  | nil => rfl
  | cons a rest ih =>
    simp only [addBalance]
    by_cases ha : a.id = i
    · simp [get_account, ha]
    · simp [get_account, ha, ih]

theorem get_account_addBalance (accs : List Account) (j i : Nat) (c : Int) :
    get_account (addBalance accs j c) i =
      (get_account accs i).map
        (fun a => { a with balance := a.balance + (if j = i then c else 0) }) := by
  by_cases h : j = i
  · subst h
    simp [get_account_addBalance_eq]
  · rw [get_account_addBalance_ne _ _ _ _ h]
    cases get_account accs i <;> simp [h]

theorem addBalance_addBalance (accs : List Account) (i : Nat) (c d : Int) :
    addBalance (addBalance accs i c) i d = addBalance accs i (c + d) := by
  induction accs with
  | nil => rfl
  | cons a rest ih =>
    simp only [addBalance]
    by_cases ha : a.id = i
    · simp [addBalance, ha, add_assoc]
    · simp [addBalance, ha, ih]

theorem addBalance_zero (accs : List Account) (i : Nat) :
    addBalance accs i 0 = accs := by
  induction accs with
  | nil => rfl
  | cons a rest ih =>
    simp only [addBalance]
    by_cases ha : a.id = i
    · rw [if_pos ha]
      simp
    · rw [if_neg ha, ih]

theorem addBalance_comm (accs : List Account) (i j : Nat) (c d : Int) (h : i ≠ j) :
    addBalance (addBalance accs i c) j d = addBalance (addBalance accs j d) i c := by
  induction accs with
  | nil => rfl
  | cons a rest ih =>
    by_cases hi : a.id = i
    · have hj : ¬ a.id = j := by rw [hi]; exact h
      simp [addBalance, hi, hj, h, Ne.symm h]
    · by_cases hj : a.id = j
      · simp [addBalance, hi, hj, h, Ne.symm h]
      · simp [addBalance, hi, hj, ih]

/-- Master balance lemma: one signed posting changes each account's balance
by exactly `sgn` times the §4.1 delta and changes nothing else. -/
theorem get_account_postTx (accs : List Account) (t : Tx) (s : Int) (i : Nat) :
    get_account (postTx accs t s) i =
      (get_account accs i).map
        (fun a => { a with balance := a.balance + s * txDelta accs t i }) := by
  cases ht : t.kind with
  | cc_detail =>
    simp only [postTx, txDelta, ht, mul_zero]
    cases get_account accs i <;> simp
  | income =>
    simp only [postTx, txDelta, ht]
    cases hacc : get_account accs t.accountId with
    | none =>
      cases get_account accs i <;> simp
    | some a =>
      rw [get_account_addBalance]
      cases get_account accs i <;> simp [mul_ite, mul_zero]
  | expense =>
    simp only [postTx, txDelta, ht]
    cases hacc : get_account accs t.accountId with
    | none =>
      cases get_account accs i <;> simp
    | some a =>
      by_cases hl : a.type = AccType.liability
      · simp only [if_pos hl]
        rw [get_account_addBalance]
        cases get_account accs i <;> simp [mul_ite, mul_zero]
      · simp only [if_neg hl]
        rw [get_account_addBalance]
        cases get_account accs i <;> simp [mul_ite, mul_zero, mul_neg]
  | transfer =>
    simp only [postTx, txDelta, ht]
    cases hf : get_account accs t.fromAccountId with
    | none =>
      cases ho : get_account accs t.toAccountId with
      | none =>
        cases get_account accs i <;> simp
      | some b =>
        by_cases hl : b.type = AccType.liability
        · simp only [if_pos hl]
          rw [get_account_addBalance]
          cases get_account accs i <;> simp [mul_ite, mul_zero, mul_neg]
        · simp only [if_neg hl]
          rw [get_account_addBalance]
          cases get_account accs i <;> simp [mul_ite, mul_zero]
    | some a =>
      cases ho : get_account accs t.toAccountId with
      | none =>
        rw [get_account_addBalance]
        cases get_account accs i <;> simp [mul_ite, mul_zero, mul_neg]
      | some b =>
        by_cases hl : b.type = AccType.liability
        · simp only [if_pos hl]
          rw [get_account_addBalance, get_account_addBalance]
          cases get_account accs i <;>
            simp [mul_ite, mul_zero, mul_neg, mul_add, add_assoc]
        · simp only [if_neg hl]
          rw [get_account_addBalance, get_account_addBalance]
          cases get_account accs i <;>
            simp [mul_ite, mul_zero, mul_neg, mul_add, add_assoc]

/-- Postings never change which accounts exist, nor any non-balance field,
so deltas computed against the posted list agree with the original. -/
theorem txDelta_postTx (accs : List Account) (u t : Tx) (s : Int) (i : Nat) :
    txDelta (postTx accs u s) t i = txDelta accs t i := by
  cases ht : t.kind with
  | cc_detail => simp only [txDelta, ht]
  | income =>
    simp only [txDelta, ht, get_account_postTx]
    cases get_account accs t.accountId <;> simp
  | expense =>
    simp only [txDelta, ht, get_account_postTx]
    cases get_account accs t.accountId <;> simp
  | transfer =>
    simp only [txDelta, ht, get_account_postTx]
    cases get_account accs t.fromAccountId <;>
      cases get_account accs t.toAccountId <;> simp

theorem refsExist_postTx (accs : List Account) (u t : Tx) (s : Int) :
    refsExist (postTx accs u s) t = refsExist accs t := by
  cases ht : t.kind <;>
    simp [refsExist, ht, get_account_postTx, Option.isSome_map]

theorem addBalance_four (accs : List Account) (iF iO : Nat) (c1 c2 c3 c4 : Int)
    (h13 : c1 + c3 = 0) (h24 : c2 + c4 = 0) :
    addBalance (addBalance (addBalance (addBalance accs iF c1) iO c2) iF c3) iO c4 = accs := by
  by_cases hFO : iF = iO
  · subst hFO
    rw [addBalance_addBalance, addBalance_addBalance, addBalance_addBalance]
    have hsum : c1 + (c2 + (c3 + c4)) = 0 := by omega
    rw [hsum]
    exact addBalance_zero _ _
  · rw [addBalance_comm _ iO iF c2 c3 (fun hh => hFO hh.symm)]
    rw [addBalance_addBalance, addBalance_addBalance, h13, h24,
        addBalance_zero, addBalance_zero]

/-- C2: for every transaction of every kind whose referenced account(s)
exist, applying the transaction's balance effect and then reversing it
restores every account (hence every balance) exactly. -/
theorem posting_reversible (accs : List Account) (t : Tx)
    (h : refsExist accs t = true) :
    postTx (postTx accs t 1) t (-1) = accs := by
  cases ht : t.kind with
  | cc_detail => simp [postTx, ht]
  | income =>
    simp only [refsExist, ht] at h
    obtain ⟨a, ha⟩ := Option.isSome_iff_exists.mp h
    simp only [postTx, ht, ha, get_account_addBalance_eq, Option.map_some']
    rw [addBalance_addBalance]
    have e : 1 * t.amount + -1 * t.amount = 0 := by ring
    rw [e]
    exact addBalance_zero _ _
  | expense =>
    simp only [refsExist, ht] at h
    obtain ⟨a, ha⟩ := Option.isSome_iff_exists.mp h
    by_cases hl : a.type = AccType.liability
    · simp only [postTx, ht, ha, if_pos hl, get_account_addBalance_eq, Option.map_some', hl,
        if_true]
      rw [addBalance_addBalance]
      have e : 1 * t.amount + -1 * t.amount = 0 := by ring
      rw [e]
      exact addBalance_zero _ _
    · simp only [postTx, ht, ha, if_neg hl, get_account_addBalance_eq, Option.map_some']
      rw [addBalance_addBalance]
      have e : -(1 * t.amount) + -(-1 * t.amount) = 0 := by ring
      rw [e]
      exact addBalance_zero _ _
  | transfer =>
    simp only [refsExist, ht, Bool.and_eq_true] at h
    obtain ⟨af, haf⟩ := Option.isSome_iff_exists.mp h.1
    obtain ⟨ao, hao⟩ := Option.isSome_iff_exists.mp h.2
    by_cases hl : ao.type = AccType.liability
    · simp only [postTx, ht, haf, hao, if_pos hl, get_account_addBalance, Option.map_some']
      exact addBalance_four _ _ _ _ _ _ _ (by ring) (by ring)
    · simp only [postTx, ht, haf, hao, if_neg hl, get_account_addBalance, Option.map_some']
      exact addBalance_four _ _ _ _ _ _ _ (by ring) (by ring)

theorem sumBy_append (l₁ l₂ : List α) (f : α → Int) :
    sumBy (l₁ ++ l₂) f = sumBy l₁ f + sumBy l₂ f := by
  simp [sumBy]

theorem sumBy_congr {l : List α} {f g : α → Int} (h : ∀ x ∈ l, f x = g x) :
    sumBy l f = sumBy l g := by
  unfold sumBy
  induction l with
  | nil => rfl
  | cons a rest ih =>
    simp only [List.map_cons, List.sum_cons]
    rw [h a (List.mem_cons_self a rest), ih (fun x hx => h x (List.mem_cons_of_mem a hx))]

theorem findTx_id (l : List Tx) (i : Nat) (t : Tx) (h : findTx l i = some t) : t.id = i := by
  induction l with
  | nil => cases h
  | cons x rest ih =>
    by_cases hx : x.id = i
    · simp only [findTx, if_pos hx] at h
      cases h
      exact hx
    · simp only [findTx, if_neg hx] at h
      exact ih h

theorem sumBy_updateTxById (l : List Tx) (i : Nat) (t t' : Tx) (f : Tx → Int)
    (h : findTx l i = some t) :
    sumBy (updateTxById l i t') f = sumBy l f - f t + f t' := by
  induction l with
  | nil => cases h
  | cons x rest ih =>
    by_cases hx : x.id = i
    · simp only [findTx, if_pos hx] at h
      cases h
      simp only [updateTxById, if_pos hx, sumBy, List.map_cons, List.sum_cons]
      ring
    · simp only [findTx, if_neg hx] at h
      simp only [updateTxById, if_neg hx, sumBy, List.map_cons, List.sum_cons]
      have := ih h
      simp only [sumBy] at this
      rw [this]
      ring

theorem removeTxById_eq_self (l : List Tx) (i : Nat) (h : ∀ b ∈ l, b.id ≠ i) :
    removeTxById l i = l := by
  induction l with
  | nil => rfl
  | cons x rest ih =>
    simp only [removeTxById, if_neg (h x (List.mem_cons_self x rest))]
    rw [ih (fun b hb => h b (List.mem_cons_of_mem x hb))]

theorem removeTxById_sublist (l : List Tx) (i : Nat) : List.Sublist (removeTxById l i) l := by
  induction l with
  | nil => exact List.Sublist.refl _
  | cons x rest ih =>
    simp only [removeTxById]
    by_cases hx : x.id = i
    · rw [if_pos hx]
      exact ih.cons x
    · rw [if_neg hx]
      exact ih.cons₂ x

theorem sumBy_removeTxById (l : List Tx) (i : Nat) (t : Tx) (f : Tx → Int)
    (h : findTx l i = some t) (hnd : (l.map Tx.id).Nodup) :
    sumBy (removeTxById l i) f = sumBy l f - f t := by
  induction l with
  | nil => cases h
  | cons x rest ih =>
    simp only [List.map_cons, List.nodup_cons] at hnd
    by_cases hx : x.id = i
    · simp only [findTx, if_pos hx] at h
      cases h
      simp only [removeTxById, if_pos hx]
      have hrest : removeTxById rest i = rest := by
        apply removeTxById_eq_self
        intro b hb
        intro e
        apply hnd.1
        have hte : t.id = b.id := by rw [hx, e]
        rw [hte]
        exact List.mem_map_of_mem Tx.id hb
      rw [hrest]
      simp only [sumBy, List.map_cons, List.sum_cons]
      ring
    · simp only [findTx, if_neg hx] at h
      simp only [removeTxById, if_neg hx, sumBy, List.map_cons, List.sum_cons]
      have := ih h hnd.2
      simp only [sumBy] at this
      rw [this]
      ring

theorem updateTxById_map_id (l : List Tx) (i : Nat) (t' : Tx) (ht' : t'.id = i) :
    (updateTxById l i t').map Tx.id = l.map Tx.id := by
  induction l with
  | nil => rfl
  | cons x rest ih =>
    by_cases hx : x.id = i
    · simp [updateTxById, hx, ht']
    · simp [updateTxById, hx, ih]

theorem le_foldl_max (l : List Nat) (b : Nat) : b ≤ l.foldl Nat.max b := by
  induction l generalizing b with
  | nil => simp
  | cons c t ih =>
    simp only [List.foldl]
    exact le_trans (Nat.le_max_left b c) (ih (Nat.max b c))

theorem mem_le_foldl_max (l : List Nat) (x : Nat) (h : x ∈ l) (b : Nat) :
    x ≤ l.foldl Nat.max b := by
  induction l generalizing b with
  | nil => cases h
  | cons c t ih =>
    rcases List.mem_cons.mp h with rfl | h'
    · simp only [List.foldl]
      exact le_trans (Nat.le_max_right b x) (le_foldl_max t _)
    · simp only [List.foldl]
      exact ih h' _

theorem next_id_not_mem (ids : List Nat) : next_id ids ∉ ids := by
  intro hmem
  cases ids with
  | nil => cases hmem
  | cons a l =>
    have hx := mem_le_foldl_max (a :: l) _ hmem 0
    simp only [next_id] at hx
    omega

theorem balance_postTx (accs : List Account) (t : Tx) (s : Int) (i : Nat) (a a0 : Account)
    (h0 : get_account accs i = some a0)
    (ha : get_account (postTx accs t s) i = some a) :
    a.balance = a0.balance + s * txDelta accs t i := by
  rw [get_account_postTx, h0, Option.map_some'] at ha
  have h := (Option.some.injEq _ _).mp ha
  rw [← h]

theorem get_account_postTx_some (accs : List Account) (t : Tx) (s : Int) (i : Nat)
    (a : Account) (ha : get_account (postTx accs t s) i = some a) :
    ∃ a0, get_account accs i = some a0 := by
  rw [get_account_postTx] at ha
  cases h0 : get_account accs i with
  | none => rw [h0] at ha; cases ha
  | some a0 => exact ⟨a0, rfl⟩

/-- Stored balance of the account in the reference (initial) document. -/
def initBal (d : Data) (i : Nat) : Int :=
  match get_account d.accounts i with
  | some a => a.balance
  | none => 0

/-- The replay-consistency invariant: every existing account's stored
balance is its initial balance plus the fold of the §4.1 deltas of all
transactions currently in the log. -/
def ledgerInvariant (init : Nat → Int) (d : Data) : Prop :=
  ∀ i a, get_account d.accounts i = some a →
    a.balance = init i + sumBy d.transactions (fun t => txDelta d.accounts t i)

def txIdsNodup (d : Data) : Prop := (d.transactions.map Tx.id).Nodup

theorem applyOp_preserves (init : Nat → Int) (d : Data) (op : Op)
    (hinv : ledgerInvariant init d) (hnd : txIdsNodup d) :
    ledgerInvariant init (applyOp d op) ∧ txIdsNodup (applyOp d op) := by
  cases op with
  | create b =>
    by_cases hr : refsExist d.accounts (mkTx d.transactions b) = true
    · have happ : applyOp d (Op.create b) =
          { d with accounts := postTx d.accounts (mkTx d.transactions b) 1,
                   transactions := d.transactions ++ [mkTx d.transactions b] } := by
        simp [applyOp, stepR, hr]
      rw [happ]
      constructor
      · intro i a ha
        simp only at ha ⊢
        obtain ⟨a0, h0⟩ := get_account_postTx_some _ _ _ _ _ ha
        have hbal := balance_postTx _ _ _ _ _ _ h0 ha
        have hsum : sumBy (d.transactions ++ [mkTx d.transactions b])
            (fun t => txDelta (postTx d.accounts (mkTx d.transactions b) 1) t i)
            = sumBy (d.transactions ++ [mkTx d.transactions b])
                (fun t => txDelta d.accounts t i) :=
          sumBy_congr (fun u _ => txDelta_postTx _ _ _ _ _)
        rw [hsum, sumBy_append]
        have hd : sumBy [mkTx d.transactions b] (fun t => txDelta d.accounts t i)
            = txDelta d.accounts (mkTx d.transactions b) i := by
          simp [sumBy]
        rw [hd]
        have := hinv i a0 h0
        omega
      · simp only [txIdsNodup, List.map_append, List.map_cons, List.map_nil]
        have hfresh : (mkTx d.transactions b).id ∉ d.transactions.map Tx.id := by
          simpa [mkTx] using next_id_not_mem (d.transactions.map Tx.id)
        simp only [txIdsNodup] at hnd
        rw [List.nodup_append]
        exact ⟨hnd, List.nodup_singleton _, by simpa [List.disjoint_singleton] using hfresh⟩
    · have happ : applyOp d (Op.create b) = d := by
        simp [applyOp, stepR, hr]
      rw [happ]
      exact ⟨hinv, hnd⟩
  | update i b =>
    cases hf : findTx d.transactions i with
    | none =>
      have happ : applyOp d (Op.update i b) = d := by
        simp [applyOp, stepR, hf]
      rw [happ]
      exact ⟨hinv, hnd⟩
    | some t =>
      have happ : applyOp d (Op.update i b) =
          { d with accounts := postTx (postTx d.accounts t (-1)) (applyBody t b) 1,
                   transactions := updateTxById d.transactions i (applyBody t b) } := by
        simp [applyOp, stepR, hf]
      rw [happ]
      constructor
      · intro j a ha
        simp only at ha ⊢
        obtain ⟨a1, h1⟩ := get_account_postTx_some _ _ _ _ _ ha
        obtain ⟨a0, h0⟩ := get_account_postTx_some _ _ _ _ _ h1
        have hb1 := balance_postTx _ _ _ _ _ _ h1 ha
        have hb0 := balance_postTx _ _ _ _ _ _ h0 h1
        have hd1 : txDelta (postTx d.accounts t (-1)) (applyBody t b) j
            = txDelta d.accounts (applyBody t b) j := txDelta_postTx _ _ _ _ _
        have hsum : sumBy (updateTxById d.transactions i (applyBody t b))
            (fun u => txDelta (postTx (postTx d.accounts t (-1)) (applyBody t b) 1) u j)
            = sumBy (updateTxById d.transactions i (applyBody t b))
                (fun u => txDelta d.accounts u j) :=
          sumBy_congr (fun u _ => by rw [txDelta_postTx, txDelta_postTx])
        rw [hsum, sumBy_updateTxById d.transactions i t (applyBody t b) _ hf]
        have := hinv j a0 h0
        rw [hd1] at hb1
        omega
      · simp only [txIdsNodup]
        rw [updateTxById_map_id d.transactions i (applyBody t b)
            (by simp [applyBody]; exact findTx_id _ _ _ hf)]
        exact hnd
  | delete i =>
    cases hf : findTx d.transactions i with
    | none =>
      have happ : applyOp d (Op.delete i) = d := by
        simp [applyOp, stepR, hf]
      rw [happ]
      exact ⟨hinv, hnd⟩
    | some t =>
      have happ : applyOp d (Op.delete i) =
          { d with accounts := postTx d.accounts t (-1),
                   transactions := removeTxById d.transactions i } := by
        simp [applyOp, stepR, hf]
      rw [happ]
      constructor
      · intro j a ha
        simp only at ha ⊢
        obtain ⟨a0, h0⟩ := get_account_postTx_some _ _ _ _ _ ha
        have hbal := balance_postTx _ _ _ _ _ _ h0 ha
        have hsum : sumBy (removeTxById d.transactions i)
            (fun u => txDelta (postTx d.accounts t (-1)) u j)
            = sumBy (removeTxById d.transactions i) (fun u => txDelta d.accounts u j) :=
          sumBy_congr (fun u _ => txDelta_postTx _ _ _ _ _)
        rw [hsum, sumBy_removeTxById d.transactions i t _ hf hnd]
        have := hinv j a0 h0
        omega
      · simp only [txIdsNodup]
        exact hnd.sublist ((removeTxById_sublist d.transactions i).map Tx.id)

theorem applyOps_preserves (init : Nat → Int) (d : Data) (ops : List Op)
    (hinv : ledgerInvariant init d) (hnd : txIdsNodup d) :
    ledgerInvariant init (applyOps d ops) ∧ txIdsNodup (applyOps d ops) := by
  induction ops generalizing d with
  | nil => exact ⟨hinv, hnd⟩
  | cons op rest ih =>
    have h1 := applyOp_preserves init d op hinv hnd
    exact ih (applyOp d op) h1.1 h1.2

/-- C1: starting from a document with an empty log, after any sequence of
transaction create/update/delete operations in which each referenced
account exists, every account's stored balance equals the fold, starting
from its initial balance, of the §4.1 sign-rule deltas of all transactions
currently in the log, in creation (= log) order. -/
theorem replay_consistency (d0 : Data) (ops : List Op)
    (h0 : d0.transactions = []) (_hok : opsOK d0 ops = true)
    (i : Nat) (a : Account)
    (ha : get_account (applyOps d0 ops).accounts i = some a) :
    a.balance = initBal d0 i +
      sumBy (applyOps d0 ops).transactions
        (fun t => txDelta (applyOps d0 ops).accounts t i) := by
  have hinv : ledgerInvariant (initBal d0) d0 := by
    intro j c hc
    simp [h0, sumBy, initBal, hc]
  have hnd : txIdsNodup d0 := by
    simp [txIdsNodup, h0]
  exact (applyOps_preserves (initBal d0) d0 ops hinv hnd).1 i a ha

def exC1Data : Data :=
  { accounts := [⟨1, "現金", AccType.asset, AccClass.current, 1000, 0, 0⟩,
                 ⟨5, "カード", AccType.liability, AccClass.current, 0, 27, 2⟩]
    transactions := []
    fixedCosts := []
    incomeSchedule := [] }

def exC1Ops : List Op :=
  [Op.create ⟨⟨2024, 5, 1⟩, 200, TxKind.expense, "食費", [], "", "", 5, 0, 0⟩,
   Op.create ⟨⟨2024, 5, 2⟩, 300, TxKind.income, "給与", [], "", "", 1, 0, 0⟩,
   Op.update 1 ⟨none, some 250, none, none, none, none, none⟩,
   Op.delete 2]

theorem replay_consistency_witness :
    opsOK exC1Data exC1Ops = true ∧
    get_account (applyOps exC1Data exC1Ops).accounts 5 =
      some ⟨5, "カード", AccType.liability, AccClass.current, 250, 27, 2⟩ ∧
    (250 : Int) = initBal exC1Data 5 +
      sumBy (applyOps exC1Data exC1Ops).transactions
        (fun t => txDelta (applyOps exC1Data exC1Ops).accounts t 5) :=
  ⟨by decide, by decide,
   replay_consistency exC1Data exC1Ops rfl (by decide) 5
     ⟨5, "カード", AccType.liability, AccClass.current, 250, 27, 2⟩ (by decide)⟩

def exC2Accs : List Account :=
  [⟨1, "現金", AccType.asset, AccClass.current, 1000, 0, 0⟩,
   ⟨5, "カード", AccType.liability, AccClass.current, 0, 27, 2⟩]

def exC2Tx : Tx := ⟨7, ⟨2024, 5, 1⟩, 150, TxKind.transfer, "振替", [], "", "", 0, 1, 5⟩

theorem posting_reversible_witness :
    refsExist exC2Accs exC2Tx = true ∧
      postTx (postTx exC2Accs exC2Tx 1) exC2Tx (-1) = exC2Accs :=
  ⟨by decide, posting_reversible exC2Accs exC2Tx (by decide)⟩

/-- C5: for every revolving account with `payDay` in 1–31 and every date:
if `today.day >= payDay` the cycle starts on this month's `payDay`,
otherwise on the previous month's `payDay` clamped to that month's last
valid day; and the three boundary examples from the specification. -/
theorem cycle_boundary :
    (∀ (a : Account) (today : YMD), 1 ≤ a.payDay → a.payDay ≤ 31 →
      (a.payDay ≤ today.d → get_cc_cycle_start a today = ⟨today.y, today.m, a.payDay⟩) ∧
      (today.d < a.payDay →
        get_cc_cycle_start a today =
          if 1 < today.m then
            ⟨today.y, today.m - 1, Nat.min a.payDay (daysInMonth today.y (today.m - 1))⟩
          else
            ⟨today.y - 1, 12, Nat.min a.payDay (daysInMonth (today.y - 1) 12)⟩)) ∧
    get_cc_cycle_start ⟨5, "c", AccType.liability, AccClass.current, 0, 27, 2⟩ ⟨2024, 5, 27⟩
      = ⟨2024, 5, 27⟩ ∧
    get_cc_cycle_start ⟨5, "c", AccType.liability, AccClass.current, 0, 27, 2⟩ ⟨2024, 5, 26⟩
      = ⟨2024, 4, 27⟩ ∧
    get_cc_cycle_start ⟨5, "c", AccType.liability, AccClass.current, 0, 31, 2⟩ ⟨2024, 2, 15⟩
      = ⟨2024, 1, 31⟩ := by
  refine ⟨?_, by decide, by decide, by decide⟩
  intro a today h1 h2
  constructor
  · intro hd
    have hne : ¬ a.payDay = 0 := by omega
    simp [get_cc_cycle_start, hne, hd]
  · intro hd
    have hne : ¬ a.payDay = 0 := by omega
    have hgt : ¬ a.payDay ≤ today.d := by omega
    by_cases hm : 1 < today.m
    · simp [get_cc_cycle_start, hne, hgt, hm]
    · simp [get_cc_cycle_start, hne, hgt, hm]

theorem cycle_boundary_witness :
    get_cc_cycle_start ⟨9, "w", AccType.liability, AccClass.current, 0, 15, 2⟩ ⟨2023, 3, 10⟩
      = ⟨2023, 2, 15⟩ := by
  have h := (cycle_boundary.1 ⟨9, "w", AccType.liability, AccClass.current, 0, 15, 2⟩
    ⟨2023, 3, 10⟩ (by decide) (by decide)).2 (by decide)
  simpa using h

def exC4Data : Data :=
  { accounts := [⟨1, "前受金", AccType.liability, AccClass.current, 0, 0, 0⟩]
    transactions := [⟨1, ⟨2024, 6, 1⟩, 500, TxKind.income, "給与", [], "", "", 1, 0, 0⟩]
    fixedCosts := []
    incomeSchedule := [] }

/-- C4 evaluated at its failing input: `calc_pending_income` counts a
future-dated income transaction on a current-class **liability** account
(its docstring and the specification require current-class **asset**
accounts), returning 500 instead of 0. -/
theorem pending_income_counts_liability :
    (calc_pending_income exC4Data ⟨2024, 5, 15⟩).1 = 500 ∧
      ¬ (calc_pending_income exC4Data ⟨2024, 5, 15⟩).1 = 0 := by
  exact ⟨by decide, by decide⟩

def exC9Data : Data :=
  { accounts := [⟨1, "現金", AccType.asset, AccClass.current, 900, 0, 0⟩]
    transactions := [⟨1, ⟨2024, 5, 1⟩, 100, TxKind.expense, "食費", [], "", "", 1, 0, 0⟩]
    fixedCosts := []
    incomeSchedule := [] }

def exC9Body : UpdateBody := ⟨none, none, none, none, none, none, some 99⟩

/-- C9 evaluated at its failing input: updating a transaction so that it
references the non-existent account 99 reports success (`true`) and leaves
account 1 with the old posting reversed (balance 900 → 1000) — a partial
application the specification's fail-closed error contract forbids. -/
theorem update_partial_apply_bug :
    (stepR exC9Data (Op.update 1 exC9Body)).2 = true ∧
    get_account exC9Data.accounts 1 =
      some ⟨1, "現金", AccType.asset, AccClass.current, 900, 0, 0⟩ ∧
    get_account (stepR exC9Data (Op.update 1 exC9Body)).1.accounts 1 =
      some ⟨1, "現金", AccType.asset, AccClass.current, 1000, 0, 0⟩ := by
  exact ⟨by decide, by decide, by decide⟩

/-! ## Lemmas about the cash-flow event list -/

theorem mem_build_cashflow_iff (d : Data) (mk : YM) (offset : Nat) (today : YMD) (e : Event) :
    e ∈ build_cashflow_events d mk offset today ↔ e ∈ cfEventsRaw d mk offset today := by
  unfold build_cashflow_events
  exact ⟨fun h => (List.perm_insertionSort _ _).mem_iff.mp h,
         fun h => (List.perm_insertionSort _ _).mem_iff.mpr h⟩

theorem cfPendingEvent_future (d : Data) (mk : YM) (today : YMD) (pending : List Nat)
    (t : Tx) (e : Event) (h : cfPendingEvent d mk 0 today pending t = some e) :
    today.d < e.day := by
  unfold cfPendingEvent at h
  split_ifs at h with h1 h2 h3 h4 <;> cases h <;>
    exact Nat.lt_of_not_le fun hle => h3 ⟨rfl, hle⟩

theorem cfLiabilityEvent_future (d : Data) (mk : YM) (today : YMD) (pending : List Nat)
    (t : Tx) (e : Event) (h : cfLiabilityEvent d mk 0 today pending t = some e) :
    today.d < e.day := by
  unfold cfLiabilityEvent at h
  by_cases h1 : t.id ∈ pending
  · rw [if_pos h1] at h
    cases h
  rw [if_neg h1] at h
  by_cases h2 : ¬ inMonth t.date mk
  · rw [if_pos h2] at h
    cases h
  rw [if_neg h2] at h
  by_cases h3 : ¬ (t.kind = TxKind.expense ∨ t.kind = TxKind.income)
  · rw [if_pos h3] at h
    cases h
  rw [if_neg h3] at h
  cases hacc : get_account d.accounts t.accountId with
  | none =>
    rw [hacc] at h
    cases h
  | some acc =>
    rw [hacc] at h
    dsimp only at h
    by_cases h4 : acc.type = AccType.liability
    · rw [if_pos h4] at h
      by_cases h5 : is_cc_account acc
      · rw [if_pos h5] at h
        cases h
      · rw [if_neg h5] at h
        by_cases h6 : (0 = 0 ∧ t.date.d ≤ today.d)
        · rw [if_pos h6] at h
          cases h
        · rw [if_neg h6] at h
          cases h
          exact Nat.lt_of_not_le fun hle => h6 ⟨rfl, hle⟩
    · rw [if_neg h4] at h
      cases h


theorem cfCcDetailEvent_cc (d : Data) (mk : YM) (t : Tx) (e : Event)
    (h : cfCcDetailEvent d mk t = some e) : e.cc = true := by
  unfold cfCcDetailEvent at h
  split_ifs at h <;> cases h <;> rfl

theorem cfFixedCostEvent_future (d : Data) (today : YMD) (fc : FixedCost) (e : Event)
    (h : cfFixedCostEvent d 0 today fc = some e) : today.d < e.day := by
  unfold cfFixedCostEvent at h
  split_ifs at h with h1 <;> cases h <;>
    exact Nat.lt_of_not_le fun hle => h1 ⟨rfl, hle⟩

theorem cfIncomeScheduleEvent_future (d : Data) (today : YMD) (inc : IncomeScheduleEntry)
    (e : Event) (h : cfIncomeScheduleEvent d 0 today inc = some e) : today.d < e.day := by
  unfold cfIncomeScheduleEvent at h
  split_ifs at h with h1 <;> cases h <;>
    exact Nat.lt_of_not_le fun hle => h1 ⟨rfl, hle⟩

theorem mem_cfSynthEvents (d : Data) (today : YMD) (e : Event) :
    e ∈ cfSynthEvents d today ↔
      ∃ a, a ∈ d.accounts ∧ is_cc_account a ∧ 0 < cfUnjournaled d today a ∧
        e = cfSynthEvent a today (cfUnjournaled d today a) := by
  unfold cfSynthEvents
  rw [List.mem_filterMap]
  constructor
  · rintro ⟨a, hmem, hfa⟩
    split_ifs at hfa with h1 h2
    · cases hfa
      exact ⟨a, hmem, h1, h2, rfl⟩
  · rintro ⟨a, hmem, hcc, hpos, rfl⟩
    refine ⟨a, hmem, ?_⟩
    rw [if_pos hcc, if_pos hpos]

/-- With `offset = 0`, the synthetic unjournaled-spend event of every
revolving account with positive remainder is in the event list. -/
theorem synth_mem_cashflow (d : Data) (mk : YM) (today : YMD) (a : Account)
    (hmem : a ∈ d.accounts) (hcc : is_cc_account a)
    (hpos : 0 < cfUnjournaled d today a) :
    cfSynthEvent a today (cfUnjournaled d today a) ∈ build_cashflow_events d mk 0 today := by
  rw [mem_build_cashflow_iff]
  unfold cfEventsRaw
  simp only [List.mem_append, if_pos rfl, if_true]
  refine Or.inl (Or.inl (Or.inr (Or.inr ?_)))
  exact (mem_cfSynthEvents d today _).mpr ⟨a, hmem, hcc, hpos, rfl⟩

/-- With `offset = 0`, every `cc = false` event dated on today's day is a
synthetic unjournaled-spend event of some revolving account with positive
remainder (every other producer either flags `cc = true` or only emits
days strictly after today). -/
theorem cashflow_today_events (d : Data) (mk : YM) (today : YMD) (e : Event)
    (he : e ∈ build_cashflow_events d mk 0 today)
    (hday : e.day = today.d) (hcc : e.cc = false) :
    ∃ a, a ∈ d.accounts ∧ is_cc_account a ∧ 0 < cfUnjournaled d today a ∧
      e = cfSynthEvent a today (cfUnjournaled d today a) := by
  rw [mem_build_cashflow_iff] at he
  unfold cfEventsRaw at he
  simp only [List.mem_append, if_pos rfl, if_true] at he
  rcases he with ((((h1 | h2) | (h3 | h4)) | h5) | h6)
  · obtain ⟨t, _, ht⟩ := List.mem_filterMap.mp h1
    exact absurd (cfPendingEvent_future d mk today _ t e ht) (by omega)
  · obtain ⟨t, _, ht⟩ := List.mem_filterMap.mp h2
    exact absurd (cfLiabilityEvent_future d mk today _ t e ht) (by omega)
  · obtain ⟨t, _, ht⟩ := List.mem_filterMap.mp h3
    exact absurd (cfCcDetailEvent_cc d mk t e ht) (by simp [hcc])
  · exact (mem_cfSynthEvents d today e).mp h4
  · obtain ⟨fc, _, hfc⟩ := List.mem_filterMap.mp h5
    exact absurd (cfFixedCostEvent_future d today fc e hfc) (by omega)
  · obtain ⟨inc, _, hinc⟩ := List.mem_filterMap.mp h6
    exact absurd (cfIncomeScheduleEvent_future d today inc e hinc) (by omega)

def exC3Acc : Account := ⟨5, "カード", AccType.liability, AccClass.current, 1000, 27, 2⟩

/-- One revolving account (payDay 27, balance 1000) with a 300-yen
`cc_detail` recorded inside the current cycle; today is 2024-05-10, so
payDay 27 falls in the requested month 2024-05 and is still future. -/
def exC3Data : Data :=
  { accounts := [exC3Acc]
    transactions := [⟨1, ⟨2024, 5, 5⟩, 300, TxKind.cc_detail, "食費", [], "", "", 5, 0, 0⟩]
    fixedCosts := []
    incomeSchedule := [] }

/-- C3 counterexample: the claim requires a billing event for the revolving
account (payDay 27 in-month and future) of magnitude the account's current
balance (1000) flagged `cc = false`.  The event list the code builds
contains no event on day 27 and no event of magnitude 1000 at all (it
contains only the `cc = true` itemisation of −300 on day 5 and the
synthetic remainder expense of −700 on today's day 10). -/
theorem no_billing_event_counterexample :
    ((build_cashflow_events exC3Data ⟨2024, 5⟩ 0 ⟨2024, 5, 10⟩).all
      (fun e => decide (e.day ≠ 27) && decide (e.amount ≠ -1000) && decide (e.amount ≠ 1000)))
      = true ∧
    (build_cashflow_events exC3Data ⟨2024, 5⟩ 0 ⟨2024, 5, 10⟩).map
      (fun e => (e.day, e.amount, e.cc)) = [(5, -300, true), (10, -700, false)] := by
  exact ⟨by decide, by decide⟩

/-- C3 (amended): for the current month (`offset = 0`) the engine replaces
the billing event the claim describes with a synthetic remainder event:
every revolving account whose unjournaled remainder (balance − in-cycle
`cc_detail` − matured routed fixed costs) is positive contributes one
expense event on *today's* day whose magnitude is that remainder (not the
balance), flagged `cc = false`; and every `cc = false` event on today's
day is such an event. -/
theorem cashflow_revolving_synth :
    (∀ (d : Data) (mk : YM) (today : YMD) (a : Account),
       a ∈ d.accounts → is_cc_account a → 0 < cfUnjournaled d today a →
       cfSynthEvent a today (cfUnjournaled d today a) ∈ build_cashflow_events d mk 0 today) ∧
    (∀ (d : Data) (mk : YM) (today : YMD) (e : Event),
       e ∈ build_cashflow_events d mk 0 today → e.day = today.d → e.cc = false →
       ∃ a, a ∈ d.accounts ∧ is_cc_account a ∧ 0 < cfUnjournaled d today a ∧
         e = cfSynthEvent a today (cfUnjournaled d today a)) :=
  ⟨fun d mk today a hmem hcc hpos => synth_mem_cashflow d mk today a hmem hcc hpos,
   fun d mk today e he hday hcc => cashflow_today_events d mk today e he hday hcc⟩

theorem cashflow_revolving_synth_witness :
    cfSynthEvent exC3Acc ⟨2024, 5, 10⟩ 700
      ∈ build_cashflow_events exC3Data ⟨2024, 5⟩ 0 ⟨2024, 5, 10⟩ := by
  have hu : cfUnjournaled exC3Data ⟨2024, 5, 10⟩ exC3Acc = 700 := by decide
  have h := cashflow_revolving_synth.1 exC3Data ⟨2024, 5⟩ ⟨2024, 5, 10⟩ exC3Acc
    (by decide) (by decide) (by rw [hu]; decide)
  rw [hu] at h
  exact h

theorem clampFold_le (l : List Account) (g : Account → Int) (P : Account → Prop)
    [DecidablePred P] (s : Int) :
    s ≤ l.foldl (fun s a => if P a ∧ 0 < g a then s + g a else s) s := by
  induction l generalizing s with
  | nil => exact le_refl s
  | cons a rest ih =>
    simp only [List.foldl]
    by_cases h : P a ∧ 0 < g a
    · rw [if_pos h]
      exact le_trans (by omega) (ih (s + g a))
    · rw [if_neg h]
      exact ih s

theorem clampFold_mem_le (l : List Account) (g : Account → Int) (P : Account → Prop)
    [DecidablePred P] (s : Int) (a : Account)
    (hmem : a ∈ l) (hP : P a) (hpos : 0 < g a) :
    s + g a ≤ l.foldl (fun s a => if P a ∧ 0 < g a then s + g a else s) s := by
  induction l generalizing s with
  | nil => cases hmem
  | cons x rest ih =>
    rcases List.mem_cons.mp hmem with rfl | h'
    · simp only [List.foldl]
      rw [if_pos (show P a ∧ 0 < g a from ⟨hP, hpos⟩)]
      exact clampFold_le rest g P (s + g a)
    · simp only [List.foldl]
      by_cases hx : P x ∧ 0 < g x
      · rw [if_pos hx]
        exact le_trans (by omega) (ih (s + g x) h')
      · rw [if_neg hx]
        exact ih s h'

/-- C10: unjournaled revolving spend is clamped to zero per account:
`ccUnsorted` is never negative, it is at least every individual positive
remainder (so a negative remainder on one account never offsets a positive
one on another), and a revolving account whose cash-flow remainder is zero
or negative produces no synthetic expense event. -/
theorem cc_unsorted_clamped :
    (∀ (d : Data) (mk : YM) (today : YMD), 0 ≤ cc_unsorted d mk today) ∧
    (∀ (d : Data) (mk : YM) (today : YMD) (a : Account),
       a ∈ d.accounts → is_cc_account a → 0 < plRemainder d mk today a →
       plRemainder d mk today a ≤ cc_unsorted d mk today) ∧
    (∀ (d : Data) (mk : YM) (today : YMD) (a : Account),
       a ∈ d.accounts → is_cc_account a → cfUnjournaled d today a ≤ 0 →
       cfSynthEvent a today (cfUnjournaled d today a) ∉ build_cashflow_events d mk 0 today) := by
  refine ⟨?_, ?_, ?_⟩
  · intro d mk today
    exact clampFold_le d.accounts (fun a => plRemainder d mk today a) is_cc_account 0
  · intro d mk today a hmem hcc hpos
    have h := clampFold_mem_le d.accounts (fun a => plRemainder d mk today a)
      is_cc_account 0 a hmem hcc hpos
    dsimp only at h
    unfold cc_unsorted
    omega
  · intro d mk today a hmem hcc hneg hin
    obtain ⟨b, _, _, hbpos, heq⟩ :=
      cashflow_today_events d mk today _ hin rfl rfl
    have hamt := congrArg Event.amount heq
    simp only [cfSynthEvent] at hamt
    omega

def exCardA : Account := ⟨5, "カードA", AccType.liability, AccClass.current, 100, 27, 2⟩

def exCardB : Account := ⟨6, "カードB", AccType.liability, AccClass.current, 50, 10, 2⟩

/-- Card A has remainder +100; card B has remainder 50 − 400 = −350 (an
over-itemised cycle), so B must be clamped away rather than offset A. -/
def exC10Data : Data :=
  { accounts := [exCardA, exCardB]
    transactions := [⟨1, ⟨2024, 5, 12⟩, 400, TxKind.cc_detail, "食費", [], "", "", 6, 0, 0⟩]
    fixedCosts := []
    incomeSchedule := [] }

theorem cc_unsorted_clamped_witness :
    (0 : Int) ≤ cc_unsorted exC10Data ⟨2024, 5⟩ ⟨2024, 5, 15⟩ ∧
    plRemainder exC10Data ⟨2024, 5⟩ ⟨2024, 5, 15⟩ exCardA
      ≤ cc_unsorted exC10Data ⟨2024, 5⟩ ⟨2024, 5, 15⟩ ∧
    cfSynthEvent exCardB ⟨2024, 5, 15⟩ (cfUnjournaled exC10Data ⟨2024, 5, 15⟩ exCardB)
      ∉ build_cashflow_events exC10Data ⟨2024, 5⟩ 0 ⟨2024, 5, 15⟩ :=
  ⟨cc_unsorted_clamped.1 exC10Data ⟨2024, 5⟩ ⟨2024, 5, 15⟩,
   cc_unsorted_clamped.2.1 exC10Data ⟨2024, 5⟩ ⟨2024, 5, 15⟩ exCardA
     (by decide) (by decide) (by decide),
   cc_unsorted_clamped.2.2 exC10Data ⟨2024, 5⟩ ⟨2024, 5, 15⟩ exCardB
     (by decide) (by decide) (by decide)⟩

/-! ## Lemmas about the calendar replay -/

theorem foldl_addShape (l : List α) (g : α → Int) (step : Int → α → Int)
    (hstep : ∀ s x, step s x = s + g x) (init : Int) :
    l.foldl step init = init + sumBy l g := by
  induction l generalizing init with
  | nil => simp [sumBy]
  | cons x rest ih =>
    simp only [List.foldl, sumBy, List.map_cons, List.sum_cons]
    rw [hstep, ih]
    simp only [sumBy]
    ring

/-- The net amount the past-month reverse-accumulation loop adds to `hand`
for one transaction (the claim-side filter-sum form of the loop body). -/
def calReverseTerm (d : Data) (mk : YM) (t : Tx) : Int :=
  if ymdLe ⟨mk.y, mk.m, 1⟩ t.date ∧ (t.kind = TxKind.expense ∨ t.kind = TxKind.income) then
    match get_account d.accounts t.accountId with
    | some a =>
      if a.type = AccType.asset ∧ a.cls = AccClass.current then
        (if t.kind = TxKind.expense then t.amount else -t.amount)
      else 0
    | none => 0
  else 0

def calReverseSum (d : Data) (mk : YM) : Int :=
  sumBy d.transactions (calReverseTerm d mk)

theorem calPastStart_eq (d : Data) (mk : YM) (today : YMD) :
    calPastStart d mk today = hand d today + calReverseSum d mk := by
  unfold calPastStart calReverseSum
  apply foldl_addShape
  intro s t
  unfold calReverseTerm
  by_cases h1 : ymdLe ⟨mk.y, mk.m, 1⟩ t.date ∧ (t.kind = TxKind.expense ∨ t.kind = TxKind.income)
  · rw [if_pos h1, if_pos h1]
    cases hacc : get_account d.accounts t.accountId with
    | none => ring
    | some a =>
      dsimp only
      by_cases h2 : a.type = AccType.asset ∧ a.cls = AccClass.current
      · rw [if_pos h2, if_pos h2]
        by_cases h3 : t.kind = TxKind.expense
        · rw [if_pos h3, if_pos h3]
        · rw [if_neg h3, if_neg h3]
          ring
      · rw [if_neg h2, if_neg h2]
        ring
  · rw [if_neg h1, if_neg h1]
    ring

theorem ymLt_irrefl (a : YM) : ¬ ymLt a a := by
  unfold ymLt
  omega

/-- C6 counterexample: target month 2024-04 is past (today 2024-05-15).
The only transaction is a 300-yen transfer out of the current-asset
account dated 2024-04-10.  `hand = 700`; the claim ("minus the net effect
of every non-cc_detail transaction **including transfers**") predicts a
start balance of `700 − (−300) = 1000`, but the code ignores transfers in
the reverse-accumulation and returns 700. -/
def exC6Data : Data :=
  { accounts := [⟨1, "普通預金", AccType.asset, AccClass.current, 700, 0, 0⟩,
                 ⟨2, "ローン", AccType.liability, AccClass.current, -300, 0, 0⟩]
    transactions := [⟨1, ⟨2024, 4, 10⟩, 300, TxKind.transfer, "振替", [], "", "", 0, 1, 2⟩]
    fixedCosts := []
    incomeSchedule := [] }

theorem calendar_past_start_counterexample :
    (get_calendar exC6Data ⟨2024, 4⟩ ⟨2024, 5, 15⟩).startBalance = 700 ∧
      hand exC6Data ⟨2024, 5, 15⟩ = 700 ∧
      ¬ (get_calendar exC6Data ⟨2024, 4⟩ ⟨2024, 5, 15⟩).startBalance = 1000 := by
  exact ⟨by decide, by decide, by decide⟩

/-- C6 (amended): for a past target month the start balance equals the hand
balance plus, for every expense/income transaction on a current-class asset
account dated on or after the target month's first day (with **no** upper
date bound), its amount if an expense and minus its amount if an income;
transfers and `cc_detail` never contribute. -/
theorem calendar_past_start (d : Data) (mk : YM) (today : YMD)
    (hp : ymLt mk ⟨today.y, today.m⟩) :
    (get_calendar d mk today).startBalance = hand d today + calReverseSum d mk := by
  unfold get_calendar
  simp only [if_pos hp]
  exact calPastStart_eq d mk today

theorem calendar_past_start_witness :
    ymLt ⟨2024, 4⟩ ⟨2024, 5⟩ ∧
      (get_calendar exC6Data ⟨2024, 4⟩ ⟨2024, 5, 15⟩).startBalance =
        hand exC6Data ⟨2024, 5, 15⟩ + calReverseSum exC6Data ⟨2024, 4⟩ :=
  ⟨by decide, calendar_past_start exC6Data ⟨2024, 4⟩ ⟨2024, 5, 15⟩ (by decide)⟩

/-- Past-month mode reports a balance for every day. -/
theorem calPastDaysAux_balance_isSome (d : Data) (mk : YM) :
    ∀ (n i : Nat) (running : Int) (e : CalDay),
      e ∈ (calPastDaysAux d mk n i running).1 → e.balance.isSome = true := by
  intro n
  induction n with
  | zero =>
    intro i running e he
    cases he
  | succ n ih =>
    intro i running e he
    simp only [calPastDaysAux] at he
    rcases List.mem_cons.mp he with rfl | htail
    · rfl
    · exact ih (i + 1) _ e htail

/-- Current/future-month mode: the balance is withheld exactly for days of
the current month strictly before today. -/
theorem calDaysAux_balance_iff (d : Data) (mk : YM) (today : YMD) :
    ∀ (n i : Nat) (running : Int) (e : CalDay),
      e ∈ (calDaysAux d mk today n i running).1 →
      (e.balance = none ↔ (mk = ⟨today.y, today.m⟩ ∧ e.day < today.d)) := by
  intro n
  induction n with
  | zero =>
    intro i running e he
    cases he
  | succ n ih =>
    intro i running e he
    simp only [calDaysAux] at he
    rcases List.mem_cons.mp he with rfl | htail
    · by_cases hc : mk = (⟨today.y, today.m⟩ : YM) ∧ i < today.d
      · simp only [if_pos hc]
        simp [hc]
      · simp only [if_neg hc]
        simp [hc]
    · exact ih (i + 1) _ e htail

def exC7Data : Data :=
  { accounts := [⟨1, "現金", AccType.asset, AccClass.current, 1000, 0, 0⟩]
    transactions := []
    fixedCosts := []
    incomeSchedule := [] }

/-- C7 counterexample: with today = 2024-05-15 and the current month
2024-05 requested, the code withholds the balance on days 1–14 (strictly
*before* today) and reports it on days 15–31 (today and *after*) — the
opposite of the claim, which withholds days strictly after today and
reports days on or before it.  Day 16 (strictly after today) reports a
balance and day 14 (before today) does not. -/
theorem calendar_withholding_counterexample :
    (get_calendar exC7Data ⟨2024, 5⟩ ⟨2024, 5, 15⟩).days.map (fun e => e.balance.isSome)
      = List.replicate 14 false ++ List.replicate 17 true := by
  decide

/-- C7 (amended): a calendar day's balance is reported as unknown (`none`)
iff the requested month is the current month and the day is strictly
*before* today; past and future months, and current-month days on or after
today, always report a balance. -/
theorem calendar_balance_withholding (d : Data) (mk : YM) (today : YMD) (e : CalDay)
    (he : e ∈ (get_calendar d mk today).days) :
    (e.balance = none ↔ (mk = ⟨today.y, today.m⟩ ∧ e.day < today.d)) := by
  unfold get_calendar at he
  by_cases hp : ymLt mk ⟨today.y, today.m⟩
  · rw [if_pos hp] at he
    dsimp only at he
    have hs := calPastDaysAux_balance_isSome d mk (daysInMonth mk.y mk.m) 1
      (calPastStart d mk today) e he
    constructor
    · intro hn
      rw [hn] at hs
      cases hs
    · rintro ⟨hmk, _⟩
      exact absurd (hmk ▸ hp) (ymLt_irrefl _)
  · rw [if_neg hp] at he
    dsimp only at he
    exact calDaysAux_balance_iff d mk today (daysInMonth mk.y mk.m) 1 _ e he

theorem calendar_balance_withholding_witness :
    ((⟨20, some 1000, false, false⟩ : CalDay).balance = none ↔
      ((⟨2024, 5⟩ : YM) = ⟨2024, 5⟩ ∧ (⟨20, some 1000, false, false⟩ : CalDay).day < 15)) :=
  calendar_balance_withholding exC7Data ⟨2024, 5⟩ ⟨2024, 5, 15⟩
    ⟨20, some 1000, false, false⟩ (by decide)

/-- A non-revolving liability account (`payDay` absent) holding a plain
in-month expense of 200 under category 食費. -/
def exC8Data : Data :=
  { accounts := [⟨2, "支払い予定", AccType.liability, AccClass.current, 200, 0, 0⟩]
    transactions := [⟨1, ⟨2024, 5, 3⟩, 200, TxKind.expense, "食費", [], "", "", 2, 0, 0⟩]
    fixedCosts := []
    incomeSchedule := [] }

/-- C8 counterexample: the claim says an expense against a *non-revolving*
liability account still counts under its category, so 食費 should total
200; the code excludes every liability-account expense, revolving or not,
and the category totals 0. -/
theorem pl_nonrevolving_liability_counterexample :
    expenses_by_cat exC8Data ⟨2024, 5⟩ ⟨2024, 5, 15⟩ "食費" = 0 ∧
      ¬ is_cc_account ⟨2, "支払い予定", AccType.liability, AccClass.current, 200, 0, 0⟩ ∧
      ¬ expenses_by_cat exC8Data ⟨2024, 5⟩ ⟨2024, 5, 15⟩ "食費" = 200 := by
  exact ⟨by decide, by decide, by decide⟩

/-- C8 (amended): a plain in-month expense transaction is excluded from the
expense-by-category totals iff its account exists and has type liability —
whether or not the account is revolving; expenses whose account is an
asset account or cannot be resolved count under their category. -/
theorem pl_expense_exclusion :
    (∀ (accs : List Account) (mk : YM) (t : Tx) (a : Account),
       t.kind = TxKind.expense → inMonth t.date mk →
       get_account accs t.accountId = some a → a.type = AccType.liability →
       plTxExpenseContrib accs mk t.category t = 0) ∧
    (∀ (accs : List Account) (mk : YM) (t : Tx) (a : Account),
       t.kind = TxKind.expense → inMonth t.date mk →
       get_account accs t.accountId = some a → a.type = AccType.asset →
       plTxExpenseContrib accs mk t.category t = t.amount) ∧
    (∀ (accs : List Account) (mk : YM) (t : Tx),
       t.kind = TxKind.expense → inMonth t.date mk →
       get_account accs t.accountId = none →
       plTxExpenseContrib accs mk t.category t = t.amount) := by
  refine ⟨?_, ?_, ?_⟩
  · intro accs mk t a ht hm hacc hl
    simp [plTxExpenseContrib, ht, hm, hacc, hl]
  · intro accs mk t a ht hm hacc hl
    have hnl : ¬ a.type = AccType.liability := by rw [hl]; intro hcontra; cases hcontra
    simp [plTxExpenseContrib, ht, hm, hacc, hnl]
  · intro accs mk t ht hm hacc
    simp [plTxExpenseContrib, ht, hm, hacc]

theorem pl_expense_exclusion_witness :
    plTxExpenseContrib exC8Data.accounts ⟨2024, 5⟩ "食費"
      ⟨1, ⟨2024, 5, 3⟩, 200, TxKind.expense, "食費", [], "", "", 2, 0, 0⟩ = 0 :=
  pl_expense_exclusion.1 exC8Data.accounts ⟨2024, 5⟩
    ⟨1, ⟨2024, 5, 3⟩, 200, TxKind.expense, "食費", [], "", "", 2, 0, 0⟩
    ⟨2, "支払い予定", AccType.liability, AccClass.current, 200, 0, 0⟩
    rfl (by decide) (by decide) rfl
